import Mathlib

/-!
Verification of `src/mpltools/color.py` (module `mpltools.color`).

The module's numeric computations are embedded over `ℚ` (the Python code
performs exact-looking linear interpolation over floats; all properties
considered here are about the interpolation formulas themselves).  A
colormap is an abstract function `ℚ → C` from a normalized index to an
opaque color type `C`.  Python exceptions (failed `assert` statements,
`TypeError` from item assignment into a tuple) are modelled with `Except`.
The module-level table `CMAP_RANGE` is threaded through the functions as
explicit state, because `colors_from_cmap` writes into it through the
alias `crange`.
-/

namespace MpltoolsColor

/-- Exceptions the Python functions can raise: a failed `assert`
(AssertionError) and item assignment on a tuple (TypeError). -/
inductive Err where
  | assertionError : Err
  | typeError : Err
deriving DecidableEq, Repr

/-- The normalized colormap index computed inside the closure `map_color`:
`val_norm = (val - pmin) * (stop - start) / (pmax - pmin)` followed by
`idx = val_norm + start` (src/mpltools/color.py lines 44-45). -/
def map_color_idx (pmin pmax start stop val : ℚ) : ℚ :=
  (val - pmin) * (stop - start) / (pmax - pmin) + start

/-- The closure `map_color` returned by `color_mapper`
(src/mpltools/color.py lines 41-46): asserts `pmin <= val <= pmax`, then
queries the colormap at `map_color_idx`. -/
def map_color {C : Type} (cmap : ℚ → C) (pmin pmax start stop val : ℚ) :
    Except Err C :=
  if pmin ≤ val ∧ val ≤ pmax then
    .ok (cmap (map_color_idx pmin pmax start stop val))
  else
    .error .assertionError

/-- `color_mapper(parameter_range, cmap, start, stop)`
(src/mpltools/color.py lines 13-48): asserts `start < stop`,
`0 <= start <= 1` and `0 <= stop <= 1`, then returns the `map_color`
closure over `pmin, pmax = parameter_range`.  The Python defaults are
`start=0`, `stop=1`. -/
def color_mapper {C : Type} (cmap : ℚ → C) (parameter_range : ℚ × ℚ)
    (start stop : ℚ) : Except Err (ℚ → Except Err C) :=
  if start < stop ∧ (0 ≤ start ∧ start ≤ 1) ∧ (0 ≤ stop ∧ stop ≤ 1) then
    .ok (map_color cmap parameter_range.1 parameter_range.2 start stop)
  else
    .error .assertionError

/-- The default-range table type: colormap name to (start, stop).  In the
source this is a dict whose values are mutable two-element sequences. -/
def Table : Type := List (String × (ℚ × ℚ))

/-- `CMAP_RANGE.get(name, ...)`: look the colormap name up in the table
(dict semantics: at most one entry per key; the first match wins). -/
def lookupRange : Table → String → Option (ℚ × ℚ)
  | [], _ => none
  | (k, v) :: rest, name => if k = name then some v else lookupRange rest name

/-- In-place update of a table entry, as performed through the alias
`crange` by `crange[0] = start` / `crange[1] = stop`
(src/mpltools/color.py lines 84-86): the entry for `name` now holds the
new pair, every other entry is untouched. -/
def setEntry : Table → String → (ℚ × ℚ) → Table
  | [], _, _ => []
  | (k, v) :: rest, name, e =>
      if k = name then (k, e) :: rest else (k, v) :: setEntry rest name e

/-- `np.linspace(a, b, num)`: `num` evenly spaced samples from `a` to `b`,
both endpoints included; for `num = 1` the single sample is `a` (the `i = 0`
term of the formula). -/
def linspace (a b : ℚ) (num : ℕ) : List ℚ :=
  (List.range num).map (fun i : ℕ => a + (b - a) * (i : ℚ) / ((num : ℚ) - 1))

/-- Modelled from the spec: the static table
`CMAP_RANGE = config['color']['cmap_range']` is loaded by `mpltools._config`,
which is not under src/.  Per the spec it maps colormap names to default
(start, stop) pairs, has entries for some colormaps (light-valued maps such
as the default `YlOrBr`), and its entries are mutable sequences that
`colors_from_cmap` assigns into in place (spec sections 3, 6 and 9).  One
representative entry suffices for the properties proved here; the exact
numeric defaults are not specified. -/
def CMAP_RANGE : Table := [("YlOrBr", (1/10, 9/10))]

/-- `colors_from_cmap(length, cmap, start, stop)`
(src/mpltools/color.py lines 51-92), with the module-level `CMAP_RANGE`
table passed as explicit state.  `crange = CMAP_RANGE.get(cmap.name, (0, 1))`
aliases the mutable table entry when the name is listed, and the immutable
tuple `(0, 1)` otherwise.  `crange[0] = start` / `crange[1] = stop` then
mutate the aliased entry in place when an override is supplied -- or raise
`TypeError` when `crange` is the fallback tuple.  After the two asserts on
the (possibly updated) bounds, the colormap is sampled at
`np.linspace(crange[0], crange[1], num=length)`.  Returns the outcome and
the table as it stands after the call. -/
def colors_from_cmap {C : Type} (cmap : ℚ → C) (name : String) (tbl : Table)
    (length : ℕ) (start stop : Option ℚ) : Except Err (List C) × Table :=
  match lookupRange tbl name with
  | some e =>
      match start, stop with
      | none, none =>
          if (0 ≤ e.1 ∧ e.1 ≤ 1) ∧ (0 ≤ e.2 ∧ e.2 ≤ 1) then
            (.ok ((linspace e.1 e.2 length).map cmap), tbl)
          else
            (.error .assertionError, tbl)
      | s?, t? =>
          let e1 := match s? with | some s => (s, e.2) | none => e
          let e2 := match t? with | some t => (e1.1, t) | none => e1
          let tbl2 := setEntry tbl name e2
          if (0 ≤ e2.1 ∧ e2.1 ≤ 1) ∧ (0 ≤ e2.2 ∧ e2.2 ≤ 1) then
            (.ok ((linspace e2.1 e2.2 length).map cmap), tbl2)
          else
            (.error .assertionError, tbl2)
  | none =>
      match start, stop with
      | none, none =>
          if (0 ≤ (0 : ℚ) ∧ (0 : ℚ) ≤ 1) ∧ (0 ≤ (1 : ℚ) ∧ (1 : ℚ) ≤ 1) then
            (.ok ((linspace 0 1 length).map cmap), tbl)
          else
            (.error .assertionError, tbl)
      | _, _ => (.error .typeError, tbl)

/-- Matplotlib's process-wide rc configuration, restricted to the one key
this module writes: `plt.rc('axes', color_cycle=...)`. -/
structure RcParams (C : Type) where
  axes_color_cycle : List C
deriving DecidableEq, Repr

/-- A matplotlib axes, restricted to the one attribute this module writes
via `ax.set_color_cycle(...)`. -/
structure Axes (C : Type) where
  color_cycle : List C
deriving DecidableEq, Repr

/-- `cycle_cmap(length, cmap, start, stop, ax)`
(src/mpltools/color.py lines 95-130): computes the cycle via
`colors_from_cmap`; if `ax` is None installs it into the global rc
configuration, otherwise into the given axes only.  The Python function
returns None; the model returns the outcome together with the resulting
table, rc state and axes. -/
def cycle_cmap {C : Type} (cmap : ℚ → C) (name : String) (tbl : Table)
    (length : ℕ) (start stop : Option ℚ) (ax : Option (Axes C))
    (rc : RcParams C) :
    Except Err Unit × Table × RcParams C × Option (Axes C) :=
  match colors_from_cmap cmap name tbl length start stop with
  | (.ok colors, tbl2) =>
      match ax with
      | none => (.ok (), tbl2, ⟨colors⟩, none)
      | some _ => (.ok (), tbl2, rc, some ⟨colors⟩)
  | (.error e, tbl2) => (.error e, tbl2, rc, ax)

/-- The first bound of the resolved range `crange` used by
`colors_from_cmap` when the call succeeds: the `start` override when one is
supplied, else the table entry's first component, else the fallback `0`. -/
def crange_start (tbl : Table) (name : String) (start : Option ℚ) : ℚ :=
  match start with
  | some s => s
  | none => ((lookupRange tbl name).getD (0, 1)).1

/-- The second bound of the resolved range `crange` used by
`colors_from_cmap` when the call succeeds: the `stop` override when one is
supplied, else the table entry's second component, else the fallback `1`. -/
def crange_stop (tbl : Table) (name : String) (stop : Option ℚ) : ℚ :=
  match stop with
  | some t => t
  | none => ((lookupRange tbl name).getD (0, 1)).2

/-- `linspace` always produces exactly `num` samples. -/
theorem linspace_length (a b : ℚ) (num : ℕ) : (linspace a b num).length = num := by
  unfold linspace
  rw [List.length_map, List.length_range]

/-- A single sample (`num = 1`) is taken at the left endpoint `a`. -/
theorem linspace_one (a b : ℚ) : linspace a b 1 = [a] := by
  unfold linspace
  have h1 : List.range 1 = [0] := rfl
  rw [h1, List.map_cons, List.map_nil]
  norm_num

/-- The `i`-th sample of `linspace a b num`. -/
theorem linspace_getElem (a b : ℚ) (num i : ℕ) (h : i < num) :
    (linspace a b num)[i]? = some (a + (b - a) * i / ((num : ℚ) - 1)) := by
  unfold linspace
  rw [List.getElem?_map, List.getElem?_range h]
  rfl

/-- Looking up `name` after `setEntry tbl name e` yields `e`, provided
`name` was present in `tbl`. -/
theorem lookupRange_setEntry (tbl : Table) (name : String) (e0 e : ℚ × ℚ)
    (h : lookupRange tbl name = some e0) :
    lookupRange (setEntry tbl name e) name = some e := by
  induction tbl with
  | nil => simp [lookupRange] at h
  | cons p rest ih =>
      obtain ⟨k, v⟩ := p
      by_cases hk : k = name
      · simp [lookupRange, setEntry, hk]
      · simp only [lookupRange, setEntry, hk, if_false, if_neg hk] at h ⊢
        exact ih h

/-- Whenever `colors_from_cmap` returns a color list, that list is the
colormap mapped over `linspace` between the resolved bounds. -/
theorem colors_from_cmap_ok_shape {C : Type} (cmap : ℚ → C) (name : String)
    (tbl : Table) (n : ℕ) (os ot : Option ℚ) (cs : List C)
    (h : (colors_from_cmap cmap name tbl n os ot).1 = .ok cs) :
    cs = (linspace (crange_start tbl name os) (crange_stop tbl name ot) n).map
      cmap := by
  cases hL : lookupRange tbl name with
  | none =>
      cases os with
      | none =>
          cases ot with
          | none =>
              simp only [colors_from_cmap, hL] at h
              rw [if_pos (by norm_num)] at h
              simp only [Except.ok.injEq] at h
              simp [crange_start, crange_stop, hL, ← h]
          | some t =>
              simp [colors_from_cmap, hL] at h
      | some s =>
          cases ot <;> simp [colors_from_cmap, hL] at h
  | some e =>
      cases os with
      | none =>
          cases ot with
          | none =>
              simp only [colors_from_cmap, hL] at h
              split at h
              · simp only [Except.ok.injEq] at h
                simp [crange_start, crange_stop, hL, ← h]
              · simp at h
          | some t =>
              simp only [colors_from_cmap, hL] at h
              split at h
              · simp only [Except.ok.injEq] at h
                simp [crange_start, crange_stop, hL, ← h]
              · simp at h
      | some s =>
          cases ot with
          | none =>
              simp only [colors_from_cmap, hL] at h
              split at h
              · simp only [Except.ok.injEq] at h
                simp [crange_start, crange_stop, hL, ← h]
              · simp at h
          | some t =>
              simp only [colors_from_cmap, hL] at h
              split at h
              · simp only [Except.ok.injEq] at h
                simp [crange_start, crange_stop, hL, ← h]
              · simp at h

/-- Claim C1: for every parameter range with `pmin < pmax`, every window
`0 ≤ start < stop ≤ 1` and every `pmin ≤ v ≤ pmax`, the function returned
by `color_mapper` queries the colormap at exactly
`start + ((v - pmin) / (pmax - pmin)) * (stop - start)`. -/
theorem C1_color_mapper_index {C : Type} (cmap : ℚ → C)
    (pmin pmax start stop v : ℚ) (hp : pmin < pmax)
    (hs0 : 0 ≤ start) (hss : start < stop) (hs1 : stop ≤ 1)
    (hv1 : pmin ≤ v) (hv2 : v ≤ pmax) :
    ∃ f, color_mapper cmap (pmin, pmax) start stop = .ok f ∧
      f v = .ok (cmap (start + (v - pmin) / (pmax - pmin) * (stop - start))) := by
  refine ⟨map_color cmap pmin pmax start stop, ?_, ?_⟩
  · unfold color_mapper
    rw [if_pos]
    exact ⟨hss, ⟨hs0, le_of_lt (lt_of_lt_of_le hss hs1)⟩,
      ⟨le_trans hs0 (le_of_lt hss), hs1⟩⟩
  · unfold map_color
    rw [if_pos ⟨hv1, hv2⟩]
    have hne : pmax - pmin ≠ 0 := by
      intro h
      exact absurd (by linarith : pmax = pmin) (ne_of_gt hp)
    congr 1
    unfold map_color_idx
    field_simp
    ring_nf

/-- Witness for C1 at `pmin = 0`, `pmax = 2`, `start = 0`, `stop = 1`,
`v = 1`: the mapper exists and queries index `1/2`. -/
theorem C1_witness :
    ∃ f, color_mapper (fun q : ℚ => q) ((0 : ℚ), 2) 0 1 = .ok f ∧
      f 1 = .ok ((fun q : ℚ => q) (0 + (1 - 0) / (2 - 0) * (1 - 0))) :=
  C1_color_mapper_index (fun q : ℚ => q) 0 2 0 1 1 (by norm_num) (by norm_num)
    (by norm_num) (by norm_num) (by norm_num) (by norm_num)

/-- Claim C2 counterexample: at `length = 1`, `start = 0`, `stop = 1` the
single sample point is `0`; the endpoint `stop = 1` is not among the sample
points, so the samples are not inclusive of both endpoints for every
positive length. -/
theorem C2_counterexample :
    (colors_from_cmap (fun q : ℚ => q) "YlOrBr" CMAP_RANGE 1 (some 0)
        (some 1)).1 = .ok [0] ∧ ¬ (1 : ℚ) ∈ [(0 : ℚ)] := by
  constructor
  · have hL : lookupRange CMAP_RANGE "YlOrBr" = some (1/10, 9/10) := rfl
    simp only [colors_from_cmap, hL]
    rw [if_pos (by norm_num), linspace_one]
    rfl
  · simp

/-- Claim C2 (amended): for a table-listed colormap and overrides
`start, stop` in `[0, 1]`, `colors_from_cmap` succeeds and samples the
colormap at the points `start + i * (stop - start) / (length - 1)`; for
`length ≥ 2` the first and last points are exactly `start` and `stop`
(both endpoints included); for `length = 1` the single point is `start`;
and for `length = 5`, `start = 0.2`, `stop = 0.8` the points are exactly
`[0.2, 0.35, 0.5, 0.65, 0.8]`. -/
theorem C2_amended {C : Type} (cmap : ℚ → C) (name : String) (tbl : Table)
    (e : ℚ × ℚ) (n : ℕ) (s t : ℚ) (hL : lookupRange tbl name = some e)
    (hs0 : 0 ≤ s) (hs1 : s ≤ 1) (ht0 : 0 ≤ t) (ht1 : t ≤ 1) :
    ∃ cs, (colors_from_cmap cmap name tbl n (some s) (some t)).1 = .ok cs ∧
      cs.length = n ∧
      (∀ i, i < n → cs[i]? = some (cmap (s + (t - s) * i / ((n : ℚ) - 1)))) ∧
      (2 ≤ n → cs[0]? = some (cmap s) ∧ cs[n - 1]? = some (cmap t)) ∧
      (n = 1 → cs = [cmap s]) ∧
      (colors_from_cmap cmap "YlOrBr" CMAP_RANGE 5 (some (1/5))
        (some (4/5))).1 = .ok (List.map cmap [1/5, 7/20, 1/2, 13/20, 4/5]) := by
  refine ⟨(linspace s t n).map cmap, ?_, ?_, ?_, ?_, ?_, ?_⟩
  · simp only [colors_from_cmap, hL]
    rw [if_pos ⟨⟨hs0, hs1⟩, ht0, ht1⟩]
  · rw [List.length_map, linspace_length]
  · intro i hi
    rw [List.getElem?_map, linspace_getElem s t n i hi]
    rfl
  · intro hn
    have hne : ((n : ℚ) - 1) ≠ 0 := by
      have h2 : (2 : ℚ) ≤ (n : ℚ) := by exact_mod_cast hn
      intro hz
      linarith
    constructor
    · have h0 : s + (t - s) * ((0 : ℕ) : ℚ) / ((n : ℚ) - 1) = s := by
        norm_num
      rw [List.getElem?_map, linspace_getElem s t n 0 (by omega), h0]
      rfl
    · have h1n : (1 : ℕ) ≤ n := by omega
      have harith : s + (t - s) * ((n - 1 : ℕ) : ℚ) / ((n : ℚ) - 1) = t := by
        rw [Nat.cast_sub h1n, Nat.cast_one, mul_div_assoc, div_self hne,
          mul_one]
        ring
      rw [List.getElem?_map, linspace_getElem s t n (n - 1) (by omega), harith]
      rfl
  · intro hn
    subst hn
    rw [linspace_one, List.map_cons, List.map_nil]
  · have hL5 : lookupRange CMAP_RANGE "YlOrBr" = some (1/10, 9/10) := rfl
    simp only [colors_from_cmap, hL5]
    rw [if_pos (by norm_num)]
    have h5 : List.range 5 = [0, 1, 2, 3, 4] := rfl
    unfold linspace
    rw [h5]
    norm_num

/-- Witness for C2 (amended) at `name = YlOrBr`, `length = 2`, `start = 0`,
`stop = 1`. -/
theorem C2_witness :
    ∃ cs, (colors_from_cmap (fun q : ℚ => q) "YlOrBr" CMAP_RANGE 2 (some 0)
        (some 1)).1 = .ok cs ∧
      cs.length = 2 ∧
      (∀ i : ℕ, i < 2 → cs[i]? = some
        (0 + (1 - 0) * (i : ℚ) / (((2 : ℕ) : ℚ) - 1))) ∧
      (2 ≤ 2 → cs[0]? = some (0 : ℚ) ∧ cs[2 - 1]? = some (1 : ℚ)) ∧
      (2 = 1 → cs = [(0 : ℚ)]) ∧
      (colors_from_cmap (fun q : ℚ => q) "YlOrBr" CMAP_RANGE 5 (some (1/5))
        (some (4/5))).1 = .ok (List.map (fun q : ℚ => q)
          [1/5, 7/20, 1/2, 13/20, 4/5]) :=
  C2_amended (fun q : ℚ => q) "YlOrBr" CMAP_RANGE (1/10, 9/10) 2 0 1 rfl
    (by norm_num) (by norm_num) (by norm_num) (by norm_num)

/-- Claim C3: whenever `colors_from_cmap` with `length = N` returns a color
list, that list has exactly `N` colors, and for `N = 1` the single color is
the colormap sampled at the resolved window's start value. -/
theorem C3_length_single {C : Type} (cmap : ℚ → C) (name : String)
    (tbl : Table) (n : ℕ) (os ot : Option ℚ) (cs : List C)
    (h : (colors_from_cmap cmap name tbl n os ot).1 = .ok cs) :
    cs.length = n ∧ (n = 1 → cs = [cmap (crange_start tbl name os)]) := by
  have hshape := colors_from_cmap_ok_shape cmap name tbl n os ot cs h
  constructor
  · rw [hshape, List.length_map, linspace_length]
  · intro hn
    subst hn
    rw [hshape, linspace_one, List.map_cons, List.map_nil]

/-- Witness for C3 at `name = YlOrBr`, `length = 1`, no overrides: the one
color is the colormap at the table's default start for YlOrBr. -/
theorem C3_witness :
    ([(1/10 : ℚ)]).length = 1 ∧
      (1 = 1 → [(1/10 : ℚ)] = [crange_start CMAP_RANGE "YlOrBr" none]) :=
  C3_length_single (fun q : ℚ => q) "YlOrBr" CMAP_RANGE 1 none none
    [(1/10 : ℚ)]
    (by
      have hL : lookupRange CMAP_RANGE "YlOrBr" = some (1/10, 9/10) := rfl
      simp only [colors_from_cmap, hL]
      rw [if_pos (by norm_num), linspace_one]
      rfl)

/-- Claim C4 counterexample: `colors_from_cmap` does not raise on
`start > stop`: with the table-listed name YlOrBr, `start = 4/5` and
`stop = 1/5` (so `start > stop`), the call returns the two colors sampled
at `4/5` and `1/5` instead of raising. -/
theorem C4_counterexample :
    (colors_from_cmap (fun q : ℚ => q) "YlOrBr" CMAP_RANGE 2 (some (4/5))
        (some (1/5))).1 = .ok [4/5, 1/5] ∧ (1/5 : ℚ) < 4/5 := by
  constructor
  · have hL : lookupRange CMAP_RANGE "YlOrBr" = some (1/10, 9/10) := rfl
    simp only [colors_from_cmap, hL]
    rw [if_pos (by norm_num)]
    have hlin : linspace (4/5) (1/5) 2 = [4/5, 1/5] := by
      unfold linspace
      have h2 : List.range 2 = [0, 1] := rfl
      rw [h2]
      norm_num
    rw [hlin]
    rfl
  · norm_num

/-- Claim C4 (amended): the mapper returned by `color_mapper` raises on any
value outside `[pmin, pmax]` without producing a color; `color_mapper`
raises on `start > stop` before returning a mapper; `colors_from_cmap`
raises when a supplied bound lies outside `[0, 1]` (for a table-listed
name) but performs no ordering check; and when `colors_from_cmap` raises,
`cycle_cmap` propagates the error and changes neither the global rc styling
state nor the axes. -/
theorem C4_amended {C : Type} (cmap : ℚ → C) (pmin pmax start stop v : ℚ)
    (name : String) (tbl : Table) (e : ℚ × ℚ) (n : ℕ) (os ot : Option ℚ)
    (s t : ℚ) (ax : Option (Axes C)) (rc : RcParams C) :
    (¬ (pmin ≤ v ∧ v ≤ pmax) →
      map_color cmap pmin pmax start stop v = .error .assertionError) ∧
    (stop < start →
      color_mapper cmap (pmin, pmax) start stop = .error .assertionError) ∧
    (lookupRange tbl name = some e → ¬ (0 ≤ s ∧ s ≤ 1) →
      (colors_from_cmap cmap name tbl n (some s) (some t)).1
        = .error .assertionError) ∧
    (∀ er, (colors_from_cmap cmap name tbl n os ot).1 = .error er →
      cycle_cmap cmap name tbl n os ot ax rc
        = (.error er, (colors_from_cmap cmap name tbl n os ot).2, rc, ax)) := by
  refine ⟨?_, ?_, ?_, ?_⟩
  · intro h
    unfold map_color
    rw [if_neg h]
  · intro h
    unfold color_mapper
    have hcond : ¬ (start < stop ∧ (0 ≤ start ∧ start ≤ 1) ∧
        (0 ≤ stop ∧ stop ≤ 1)) := by
      intro hc
      exact absurd hc.1 (not_lt.mpr h.le)
    rw [if_neg hcond]
  · intro hL hs
    simp only [colors_from_cmap, hL]
    rw [if_neg fun hc => hs hc.1]
  · intro er h
    unfold cycle_cmap
    have hpair : colors_from_cmap cmap name tbl n os ot
        = (Except.error er, (colors_from_cmap cmap name tbl n os ot).2) := by
      rw [← h]
    rw [hpair]

/-- Witness for C4 (amended): concrete raising inputs for each part, and a
failing `cycle_cmap` call that leaves the rc state and axes untouched. -/
theorem C4_witness :
    map_color (fun q : ℚ => q) 0 1 0 1 2 = .error .assertionError ∧
    color_mapper (fun q : ℚ => q) ((0 : ℚ), 1) (1/2) (1/4)
      = .error .assertionError ∧
    (colors_from_cmap (fun q : ℚ => q) "YlOrBr" CMAP_RANGE 3 (some 2)
        (some (1/4))).1 = .error .assertionError ∧
    cycle_cmap (fun q : ℚ => q) "viridis" CMAP_RANGE 3 (some (1/2)) none
        none ⟨[]⟩
      = (.error .typeError, (colors_from_cmap (fun q : ℚ => q) "viridis"
          CMAP_RANGE 3 (some (1/2)) none).2, ⟨[]⟩, none) :=
  ⟨(C4_amended (fun q : ℚ => q) 0 1 0 1 2 "YlOrBr" CMAP_RANGE (1/10, 9/10) 3
      none none 2 (1/4) none ⟨[]⟩).1 (by norm_num),
   (C4_amended (fun q : ℚ => q) 0 1 (1/2) (1/4) 0 "YlOrBr" CMAP_RANGE
      (1/10, 9/10) 3 none none 2 (1/4) none ⟨[]⟩).2.1 (by norm_num),
   (C4_amended (fun q : ℚ => q) 0 1 0 1 2 "YlOrBr" CMAP_RANGE (1/10, 9/10) 3
      none none 2 (1/4) none ⟨[]⟩).2.2.1 rfl (by norm_num),
   (C4_amended (fun q : ℚ => q) 0 1 0 1 2 "viridis" CMAP_RANGE (1/10, 9/10) 3
      (some (1/2)) none 2 (1/4) none ⟨[]⟩).2.2.2 .typeError
     (by
       have hN : lookupRange CMAP_RANGE "viridis" = none := rfl
       simp only [colors_from_cmap, hN])⟩

/-- Claim C5 counterexample: a `colors_from_cmap` call overriding `start`
for the table-listed name YlOrBr rewrites that table entry in place: the
table after the call differs from the table before it. -/
theorem C5_counterexample :
    (colors_from_cmap (fun q : ℚ => q) "YlOrBr" CMAP_RANGE 3 (some (1/2))
        none).2 = [("YlOrBr", ((1/2 : ℚ), (9/10 : ℚ)))] ∧
    ([("YlOrBr", ((1/2 : ℚ), (9/10 : ℚ)))] : Table) ≠ CMAP_RANGE := by
  constructor
  · have hL : lookupRange CMAP_RANGE "YlOrBr" = some (1/10, 9/10) := rfl
    simp only [colors_from_cmap, hL]
    rw [if_pos (by norm_num)]
    rfl
  · intro hEq
    norm_num [CMAP_RANGE] at hEq

/-- Claim C5 (amended): the default-range table is read-only only under
calls without overrides (and under calls with unrecognized names): such
calls return the table unchanged; but a call overriding `start` for a
table-listed name mutates that entry in place, so the stored default window
for that name changes across calls. -/
theorem C5_amended {C : Type} (cmap : ℚ → C) (name : String) (tbl : Table)
    (n : ℕ) (e : ℚ × ℚ) (s : ℚ) (os ot : Option ℚ) :
    ((colors_from_cmap cmap name tbl n none none).2 = tbl) ∧
    (lookupRange tbl name = none →
      (colors_from_cmap cmap name tbl n os ot).2 = tbl) ∧
    (lookupRange tbl name = some e →
      lookupRange (colors_from_cmap cmap name tbl n (some s) none).2 name
        = some (s, e.2)) := by
  refine ⟨?_, ?_, ?_⟩
  · cases hL : lookupRange tbl name with
    | none =>
        simp only [colors_from_cmap, hL]
        rw [if_pos (by norm_num)]
    | some e0 =>
        simp only [colors_from_cmap, hL]
        split
        · rfl
        · rfl
  · intro hL
    cases os with
    | none =>
        cases ot with
        | none =>
            simp only [colors_from_cmap, hL]
            rw [if_pos (by norm_num)]
        | some t0 => simp only [colors_from_cmap, hL]
    | some s0 =>
        cases ot with
        | none => simp only [colors_from_cmap, hL]
        | some t0 => simp only [colors_from_cmap, hL]
  · intro hL
    simp only [colors_from_cmap, hL]
    split
    · exact lookupRange_setEntry tbl name e (s, e.2) hL
    · exact lookupRange_setEntry tbl name e (s, e.2) hL

/-- Witness for C5 (amended) on the modelled table: a no-override call
leaves the table unchanged, and an override call rewrites the YlOrBr
entry. -/
theorem C5_witness :
    ((colors_from_cmap (fun q : ℚ => q) "YlOrBr" CMAP_RANGE 3 none none).2
      = CMAP_RANGE) ∧
    lookupRange (colors_from_cmap (fun q : ℚ => q) "YlOrBr" CMAP_RANGE 3
      (some (1/2)) none).2 "YlOrBr" = some (1/2, 9/10) :=
  ⟨(C5_amended (fun q : ℚ => q) "YlOrBr" CMAP_RANGE 3 (1/10, 9/10) (1/2)
      none none).1,
   (C5_amended (fun q : ℚ => q) "YlOrBr" CMAP_RANGE 3 (1/10, 9/10) (1/2)
      none none).2.2 rfl⟩

/-- Claim C6: `cycle_cmap` with no target axes installs the computed cycle
into the process-wide rc styling state; with a target axes it changes only
that axes's cycle and leaves the rc state exactly as it was; in both cases
the returned value is `()` (the Python function returns None). -/
theorem C6_cycle_cmap_scope {C : Type} (cmap : ℚ → C) (name : String)
    (tbl : Table) (n : ℕ) (os ot : Option ℚ) (rc : RcParams C) (a : Axes C)
    (colors : List C) (tbl2 : Table)
    (h : colors_from_cmap cmap name tbl n os ot = (.ok colors, tbl2)) :
    cycle_cmap cmap name tbl n os ot none rc
      = (.ok (), tbl2, ⟨colors⟩, none) ∧
    cycle_cmap cmap name tbl n os ot (some a) rc
      = (.ok (), tbl2, rc, some ⟨colors⟩) := by
  constructor
  · unfold cycle_cmap
    rw [h]
  · unfold cycle_cmap
    rw [h]

/-- Witness for C6: a default-window YlOrBr call of length 1; without axes
the rc cycle becomes the sampled color, with an axes (whose cycle starts as
`[7]`) the rc state stays empty and only the axes cycle changes. -/
theorem C6_witness :
    cycle_cmap (fun q : ℚ => q) "YlOrBr" CMAP_RANGE 1 none none none ⟨[]⟩
      = (.ok (), CMAP_RANGE, ⟨[(1/10 : ℚ)]⟩, none) ∧
    cycle_cmap (fun q : ℚ => q) "YlOrBr" CMAP_RANGE 1 none none
        (some ⟨[(7 : ℚ)]⟩) ⟨[]⟩
      = (.ok (), CMAP_RANGE, ⟨[]⟩, some ⟨[(1/10 : ℚ)]⟩) :=
  C6_cycle_cmap_scope (fun q : ℚ => q) "YlOrBr" CMAP_RANGE 1 none none ⟨[]⟩
    ⟨[(7 : ℚ)]⟩ [(1/10 : ℚ)] CMAP_RANGE
    (by
      have hL : lookupRange CMAP_RANGE "YlOrBr" = some (1/10, 9/10) := rfl
      simp only [colors_from_cmap, hL]
      rw [if_pos (by norm_num), linspace_one]
      rfl)

/-- Claim C7: for `stop > start` and `pmin < v1 < v2 < pmax`, the colormap
index queried by the mapper is strictly larger for `v2` than for `v1`. -/
theorem C7_map_color_monotonic (pmin pmax start stop v1 v2 : ℚ)
    (h1 : pmin < v1) (h12 : v1 < v2) (h2 : v2 < pmax) (hss : start < stop) :
    map_color_idx pmin pmax start stop v1
      < map_color_idx pmin pmax start stop v2 := by
  unfold map_color_idx
  have hd : (0 : ℚ) < pmax - pmin := by linarith
  have hs : (0 : ℚ) < stop - start := by linarith
  have hmul : (v1 - pmin) * (stop - start) < (v2 - pmin) * (stop - start) :=
    mul_lt_mul_of_pos_right (by linarith) hs
  have hdiv := (div_lt_div_iff_of_pos_right hd).mpr hmul
  linarith

/-- Witness for C7 at `pmin = 0`, `pmax = 4`, `start = 0`, `stop = 1`,
`v1 = 1`, `v2 = 2`. -/
theorem C7_witness :
    map_color_idx 0 4 0 1 1 < map_color_idx 0 4 0 1 2 :=
  C7_map_color_monotonic 0 4 0 1 1 2 (by norm_num) (by norm_num)
    (by norm_num) (by norm_num)

/-- Claim C8: the mapper hits the window endpoints exactly:
`color_mapper((0,1))` (default window) at `0` yields the colormap at the
window start `0`, and `color_mapper((0,1), start=s, stop=t)` at `1` yields
the colormap at `t`. -/
theorem C8_window_endpoints {C : Type} (cmap : ℚ → C) (s t : ℚ)
    (h0 : 0 ≤ s) (hst : s < t) (h1 : t ≤ 1) :
    (∃ f, color_mapper cmap ((0 : ℚ), 1) 0 1 = .ok f ∧
      f 0 = .ok (cmap 0)) ∧
    (∃ f, color_mapper cmap ((0 : ℚ), 1) s t = .ok f ∧
      f 1 = .ok (cmap t)) := by
  constructor
  · refine ⟨map_color cmap 0 1 0 1, ?_, ?_⟩
    · unfold color_mapper
      rw [if_pos (by norm_num)]
    · unfold map_color
      rw [if_pos (by norm_num)]
      have hidx : map_color_idx 0 1 0 1 0 = 0 := by
        unfold map_color_idx
        norm_num
      rw [hidx]
  · refine ⟨map_color cmap 0 1 s t, ?_, ?_⟩
    · unfold color_mapper
      rw [if_pos ⟨hst, ⟨h0, by linarith⟩, ⟨by linarith, h1⟩⟩]
    · unfold map_color
      rw [if_pos (by norm_num)]
      have hidx : map_color_idx 0 1 s t 1 = t := by
        unfold map_color_idx
        norm_num
      rw [hidx]

/-- Witness for C8 at `s = 1/4`, `t = 3/4`. -/
theorem C8_witness :
    (∃ f, color_mapper (fun q : ℚ => q) ((0 : ℚ), 1) 0 1 = .ok f ∧
      f 0 = .ok (0 : ℚ)) ∧
    (∃ f, color_mapper (fun q : ℚ => q) ((0 : ℚ), 1) (1/4) (3/4) = .ok f ∧
      f 1 = .ok ((3 : ℚ)/4)) :=
  C8_window_endpoints (fun q : ℚ => q) (1/4) (3/4) (by norm_num)
    (by norm_num) (by norm_num)

/-- Claim C9: for a colormap name absent from the table and no overrides,
`colors_from_cmap` falls back to the window `(0, 1)` and samples `length`
evenly spaced points `i / (length - 1)` across `[0, 1]`, leaving the table
unchanged. -/
theorem C9_unlisted_fallback {C : Type} (cmap : ℚ → C) (name : String)
    (tbl : Table) (n : ℕ) (h : lookupRange tbl name = none) :
    colors_from_cmap cmap name tbl n none none
      = (.ok (((List.range n).map
          (fun i : ℕ => (i : ℚ) / ((n : ℚ) - 1))).map cmap), tbl) := by
  simp only [colors_from_cmap, h]
  rw [if_pos (by norm_num)]
  have hls : linspace 0 1 n
      = (List.range n).map (fun i : ℕ => (i : ℚ) / ((n : ℚ) - 1)) := by
    unfold linspace
    norm_num
  rw [hls]

/-- Witness for C9 at the unlisted name viridis with `length = 2`. -/
theorem C9_witness :
    colors_from_cmap (fun q : ℚ => q) "viridis" CMAP_RANGE 2 none none
      = (.ok (((List.range 2).map
          (fun i : ℕ => (i : ℚ) / (((2 : ℕ) : ℚ) - 1))).map
            (fun q : ℚ => q)), CMAP_RANGE) :=
  C9_unlisted_fallback (fun q : ℚ => q) "viridis" CMAP_RANGE 2 rfl

/-- Claim C10: overriding `start` or `stop` (or both) for a colormap name
absent from the table raises `TypeError` -- item assignment into the
immutable `(0, 1)` fallback tuple -- and returns no colors, while the same
override arguments with a table-listed name succeed. -/
theorem C10_unlisted_override_raises {C : Type} (cmap : ℚ → C)
    (nameU nameL : String) (tbl : Table) (e : ℚ × ℚ) (n : ℕ) (s t : ℚ)
    (hU : lookupRange tbl nameU = none) (hL : lookupRange tbl nameL = some e)
    (hs0 : 0 ≤ s) (hst : s < t) (ht1 : t ≤ 1) :
    (colors_from_cmap cmap nameU tbl n (some s) (some t)).1
      = .error .typeError ∧
    (colors_from_cmap cmap nameU tbl n (some s) none).1
      = .error .typeError ∧
    (colors_from_cmap cmap nameU tbl n none (some t)).1
      = .error .typeError ∧
    (colors_from_cmap cmap nameL tbl n (some s) (some t)).1
      = .ok ((linspace s t n).map cmap) := by
  refine ⟨?_, ?_, ?_, ?_⟩
  · simp only [colors_from_cmap, hU]
  · simp only [colors_from_cmap, hU]
  · simp only [colors_from_cmap, hU]
  · simp only [colors_from_cmap, hL]
    rw [if_pos ⟨⟨hs0, by linarith⟩, ⟨by linarith, ht1⟩⟩]

/-- Witness for C10: viridis (unlisted) raises on overrides, YlOrBr
(listed) succeeds with the same `start = 1/4`, `stop = 3/4`. -/
theorem C10_witness :
    (colors_from_cmap (fun q : ℚ => q) "viridis" CMAP_RANGE 2 (some (1/4))
        (some (3/4))).1 = .error .typeError ∧
    (colors_from_cmap (fun q : ℚ => q) "viridis" CMAP_RANGE 2 (some (1/4))
        none).1 = .error .typeError ∧
    (colors_from_cmap (fun q : ℚ => q) "viridis" CMAP_RANGE 2 none
        (some (3/4))).1 = .error .typeError ∧
    (colors_from_cmap (fun q : ℚ => q) "YlOrBr" CMAP_RANGE 2 (some (1/4))
        (some (3/4))).1
      = .ok ((linspace (1/4) (3/4) 2).map (fun q : ℚ => q)) :=
  C10_unlisted_override_raises (fun q : ℚ => q) "viridis" "YlOrBr"
    CMAP_RANGE (1/10, 9/10) 2 (1/4) (3/4) rfl rfl (by norm_num)
    (by norm_num) (by norm_num)

end MpltoolsColor
